import Mathlib

/-!
Shallow embedding of `agent_torch/core/distributions/distributions.py`:
five differentiable surrogate operators for discrete distributions
(straight-through Bernoulli, weighted-jump Bernoulli, Binomial, Geometric,
single-sample Categorical), each a forward sampler plus a backward
surrogate-gradient rule.

Tensors are modelled elementwise as lists of rationals (`Tensor`); the
exact rational arithmetic mirrors the real-valued formulas of the source.
The Geometric operator uses `Real.log`, so its embedding lives over `ℝ`.
Randomness is modelled by passing the underlying uniform draws as explicit
arguments (`u`), as the source obtains them from `torch.rand`; the saved
autograd context of each operator is an explicit structure.
-/

namespace AgentTorch

/-- Elementwise tensors, modelled as lists of exact rationals. -/
abbrev Tensor := List ℚ

/-- Three-list pointwise zip, mirroring elementwise torch ops of three args. -/
def zipWith3 {α β γ δ : Type} (f : α → β → γ → δ) : List α → List β → List γ → List δ
  | a :: as, b :: bs, c :: cs => f a b c :: zipWith3 f as bs cs
  | _, _, _ => []

/-- `torch.where(cond, x, y)` elementwise on same-shape operands. -/
def torchWhere (cond : List Bool) (x y : Tensor) : Tensor :=
  zipWith3 (fun c a b => if c then a else b) cond x y

/-- `torch.ones(shape)` for a 1-D shape. -/
def torchOnes (n : Nat) : Tensor :=
  List.replicate n 1

/-- `torch.bernoulli(p)` elementwise via inverse transform on uniform draws
`u`: the cell samples `1` exactly when its uniform draw falls below `p`. -/
def torchBernoulli (p u : Tensor) : Tensor :=
  List.zipWith (fun pi ui => if ui < pi then 1 else 0) p u

/-- Context saved by both Bernoulli-style forwards: `ctx.save_for_backward(result, p)`. -/
structure BernoulliCtx where
  result : Tensor
  p : Tensor
  deriving DecidableEq, Repr

/-- `StraightThroughBernoulli.forward`: sample `torch.bernoulli(p)`, save
`(result, p)`, return the sample. -/
def straightThroughBernoulli_forward (p u : Tensor) : Tensor × BernoulliCtx :=
  let result := torchBernoulli p u
  (result, ⟨result, p⟩)

/-- `StraightThroughBernoulli.backward`: `ws = torch.ones(result.shape)`;
return `grad_output * ws`. -/
def straightThroughBernoulli_backward (ctx : BernoulliCtx) (grad_output : Tensor) : Tensor :=
  let ws := torchOnes ctx.result.length
  List.zipWith (· * ·) grad_output ws

/-- `Bernoulli.forward` (weighted-jump): sample `torch.bernoulli(p)`, save
`(result, p)`, return the sample. -/
def bernoulli_forward (p u : Tensor) : Tensor × BernoulliCtx :=
  let result := torchBernoulli p u
  (result, ⟨result, p⟩)

/-- `Bernoulli.backward` (weighted-jump): `w_minus = (1/p)/2`,
`w_plus = (1/(1-p))/2`, `ws = torch.where(result == 1, w_minus, w_plus)`;
return `grad_output * ws`. -/
def bernoulli_backward (ctx : BernoulliCtx) (grad_output : Tensor) : Tensor :=
  let w_minus := ctx.p.map (fun x => (1 / x) / 2)
  let w_plus := ctx.p.map (fun x => (1 / (1 - x)) / 2)
  let ws := torchWhere (ctx.result.map (fun r => decide (r = 1))) w_minus w_plus
  List.zipWith (· * ·) grad_output ws

/-- Context saved by `Binomial.forward`: `ctx.save_for_backward(result, p, n)`. -/
structure BinomialCtx where
  result : ℚ
  p : ℚ
  n : ℚ
  deriving DecidableEq, Repr

/-- `torch.distributions.binomial.Binomial(n, p).sample()` for a single cell,
modelled as the count of successes among `n` Bernoulli(p) trials driven by
the uniform draws `us`. -/
def binomialSample (n : Nat) (p : ℚ) (us : List ℚ) : ℚ :=
  ((us.take n).countP (fun u => decide (u < p)) : Nat)

/-- `Binomial.forward` for a single cell: sample, save `(result, p, n)`,
return the sample. -/
def binomial_forward (n : Nat) (p : ℚ) (us : List ℚ) : ℚ × BinomialCtx :=
  let result := binomialSample n p us
  (result, ⟨result, p, (n : ℚ)⟩)

/-- `Binomial.backward` for a single cell: `w_minus = result/p`,
`w_plus = (n-result)/(1-p)`, contributions gated by `result > 0` and
`result < n`, weight `ws = (wminus_cont + wplus_cont)/2`; returns
`(None, grad_output * ws)` — the first slot is the (absent) gradient for `n`. -/
def binomial_backward (ctx : BinomialCtx) (grad_output : ℚ) : Option ℚ × ℚ :=
  let w_minus := ctx.result / ctx.p
  let w_plus := (ctx.n - ctx.result) / (1 - ctx.p)
  let wminus_cont := if ctx.result > 0 then w_minus else 0
  let wplus_cont := if ctx.result < ctx.n then w_plus else 0
  let ws := (wminus_cont + wplus_cont) / 2
  (none, grad_output * ws)

/-- Context saved by `Geometric.forward`: `ctx.save_for_backward(result, p)`
(with `p` the clamped parameter). -/
structure GeometricCtx where
  result : ℝ
  p : ℝ

/-- `torch.clamp(x, min=lo, max=hi)` for a single cell. -/
noncomputable def clampR (x lo hi : ℝ) : ℝ :=
  max lo (min x hi)

/-- The clamp bounds of `Geometric.forward`: `1e-5` and `1 - 1e-5`. -/
noncomputable def geomEps : ℝ := 1 / 100000

/-- `Geometric.forward` for a single cell: clamp `p` into
`[1e-5, 1-1e-5]`, draw `u`, compute `ceil(log(1-u)/log(1-p))` (inverse-CDF),
save `(result, clamped p)`, return the sample. -/
noncomputable def geometric_forward (p u : ℝ) : ℝ × GeometricCtx :=
  let pc := clampR p geomEps (1 - geomEps)
  let result : ℝ := ((⌈Real.log (1 - u) / Real.log (1 - pc)⌉ : ℤ) : ℝ)
  (result, ⟨result, pc⟩)

/-- `Geometric.backward` for a single cell: `w_plus = 1/p`,
`w_minus = (result-1)/(1-p)`, contributions gated by `result > 0` and
`result > 1`, returns `grad_output * ((w_plus_cont + w_minus_cont)/2)`. -/
noncomputable def geometric_backward (ctx : GeometricCtx) (grad_output : ℝ) : ℝ :=
  let w_plus := 1 / ctx.p
  let w_minus := (ctx.result - 1) / (1 - ctx.p)
  let w_plus_cont := if ctx.result > 0 then w_plus else 0
  let w_minus_cont := if ctx.result > 1 then w_minus else 0
  grad_output * ((w_plus_cont + w_minus_cont) / 2)

/-- Context saved by `StochasticCategorical.forward`:
`ctx.save_for_backward(probs, torch.tensor(idx_int))`. -/
structure CategoricalCtx where
  probs : List ℚ
  idx : Nat
  deriving DecidableEq, Repr

/-- `torch.cumsum(probs, dim=0)`: running prefix sums. -/
def cumsum : List ℚ → List ℚ
  | [] => []
  | a :: t => a :: (cumsum t).map (fun x => a + x)

/-- `torch.searchsorted(cum_probs, u)` with the default left side on a sorted
cumulative list: the first index whose entry is `≥ u` (the list's length when
no entry qualifies). -/
def searchsorted (cum : List ℚ) (u : ℚ) : Nat :=
  cum.findIdx (fun c => decide (u ≤ c))

/-- `StochasticCategorical.forward`: cumulative sums, draw `u`, find the
first index with `u ≤ cum_probs[idx]`, save `(probs, idx)`, return the index
as a scalar. -/
def stochasticCategorical_forward (probs : List ℚ) (u : ℚ) : ℚ × CategoricalCtx :=
  let cum := cumsum probs
  let idx := searchsorted cum u
  ((idx : ℚ), ⟨probs, idx⟩)

/-- `StochasticCategorical.backward`: zero vector when `i == 0`; otherwise
`F_lower = sum(probs[:i])`, `w = F_lower / probs[i]`, and a zero vector with
entry `grad_output * (-w)` written at position `i`. -/
def stochasticCategorical_backward (ctx : CategoricalCtx) (grad_output : ℚ) : List ℚ :=
  let i := ctx.idx
  let grad_probs := List.replicate ctx.probs.length (0 : ℚ)
  if i = 0 then grad_probs
  else
    let F_lower := (ctx.probs.take i).sum
    let w := F_lower / ctx.probs.getD i 0
    grad_probs.set i (grad_output * (-w))

/-! ### Indexing helpers for elementwise statements -/

theorem getD_zipWith {α β γ : Type} (f : α → β → γ) (da : α) (db : β) (dc : γ) :
    ∀ (a : List α) (b : List β) (i : Nat), i < a.length → i < b.length →
      (List.zipWith f a b).getD i dc = f (a.getD i da) (b.getD i db) := by
  intro a
  induction a with
  | nil => intro b i h _; simp at h
  | cons x xs ih =>
    intro b i h1 h2
    cases b with
    | nil => simp at h2
    | cons y ys =>
      cases i with
      | zero => simp [List.zipWith, List.getD]
      | succ j =>
        simp only [List.zipWith, List.getD_cons_succ]
        exact ih ys j (Nat.lt_of_succ_lt_succ h1) (Nat.lt_of_succ_lt_succ h2)

theorem getD_zipWith3 {α β γ δ : Type} (f : α → β → γ → δ) (da : α) (db : β) (dc : γ) (dd : δ) :
    ∀ (a : List α) (b : List β) (c : List γ) (i : Nat),
      i < a.length → i < b.length → i < c.length →
      (zipWith3 f a b c).getD i dd = f (a.getD i da) (b.getD i db) (c.getD i dc) := by
  intro a
  induction a with
  | nil => intro b c i h _ _; simp at h
  | cons x xs ih =>
    intro b c i h1 h2 h3
    cases b with
    | nil => simp at h2
    | cons y ys =>
      cases c with
      | nil => simp at h3
      | cons z zs =>
        cases i with
        | zero => simp [zipWith3, List.getD]
        | succ j =>
          simp only [zipWith3, List.getD_cons_succ]
          exact ih ys zs j (Nat.lt_of_succ_lt_succ h1) (Nat.lt_of_succ_lt_succ h2)
            (Nat.lt_of_succ_lt_succ h3)

theorem getD_map {α β : Type} (f : α → β) (da : α) (db : β) :
    ∀ (a : List α) (i : Nat), i < a.length →
      (a.map f).getD i db = f (a.getD i da) := by
  intro a
  induction a with
  | nil => intro i h; simp at h
  | cons x xs ih =>
    intro i h
    cases i with
    | zero => simp [List.getD]
    | succ j =>
      simp only [List.map, List.getD_cons_succ]
      exact ih j (Nat.lt_of_succ_lt_succ h)

theorem zipWith3_length {α β γ δ : Type} (f : α → β → γ → δ) :
    ∀ (a : List α) (b : List β) (c : List γ),
      (zipWith3 f a b c).length = min a.length (min b.length c.length) := by
  intro a
  induction a with
  | nil => intro b c; simp [zipWith3]
  | cons x xs ih =>
    intro b c
    cases b with
    | nil => simp [zipWith3]
    | cons y ys =>
      cases c with
      | nil => simp [zipWith3]
      | cons z zs => simp [zipWith3, ih ys zs]; omega

theorem zipWith_mul_replicate_one :
    ∀ (g : List ℚ) (n : Nat), g.length = n →
      List.zipWith (· * ·) g (List.replicate n (1 : ℚ)) = g := by
  intro g
  induction g with
  | nil => intro n _; simp
  | cons x xs ih =>
    intro n h
    cases n with
    | zero => simp at h
    | succ m =>
      simp only [List.replicate_succ, List.zipWith_cons_cons, mul_one]
      rw [ih m (by simpa using h)]

theorem getD_replicate_zero (n j : Nat) :
    (List.replicate n (0 : ℚ)).getD j 0 = 0 := by
  induction n generalizing j with
  | zero => simp
  | succ m ih =>
    cases j with
    | zero => simp [List.replicate_succ]
    | succ k => simp only [List.replicate_succ, List.getD_cons_succ]; exact ih k

theorem getD_set_self (l : List ℚ) (i : Nat) (v : ℚ) (h : i < l.length) :
    (l.set i v).getD i 0 = v := by
  induction l generalizing i with
  | nil => simp at h
  | cons x xs ih =>
    cases i with
    | zero => simp
    | succ j =>
      simp only [List.set_cons_succ, List.getD_cons_succ]
      exact ih j (Nat.lt_of_succ_lt_succ h)

theorem getD_set_ne (l : List ℚ) (i j : Nat) (v : ℚ) (hne : j ≠ i) :
    (l.set i v).getD j 0 = l.getD j 0 := by
  induction l generalizing i j with
  | nil => simp
  | cons x xs ih =>
    cases i with
    | zero =>
      cases j with
      | zero => exact absurd rfl hne
      | succ k => simp
    | succ m =>
      cases j with
      | zero => simp
      | succ k =>
        simp only [List.set_cons_succ, List.getD_cons_succ]
        exact ih m k (fun h => hne (by rw [h]))

theorem cumsum_length : ∀ l : List ℚ, (cumsum l).length = l.length := by
  intro l
  induction l with
  | nil => rfl
  | cons a t ih => simp [cumsum, ih]

theorem sum_mem_cumsum : ∀ l : List ℚ, l ≠ [] → l.sum ∈ cumsum l := by
  intro l
  induction l with
  | nil => intro h; exact absurd rfl h
  | cons a t ih =>
    intro _
    cases t with
    | nil => simp [cumsum]
    | cons b s =>
      have hmem := ih (by simp)
      rw [cumsum, List.sum_cons]
      exact List.mem_cons_of_mem a (List.mem_map_of_mem _ hmem)

/-! ### Claim theorems -/

/-- C1: the weighted-jump `Bernoulli.backward` returns, elementwise,
`g / (2p)` at positions where the saved sample is `1` and `g / (2(1-p))`
at positions where the saved sample is `0`. -/
theorem c1_weighted_jump_bernoulli_backward (result p g : Tensor) (i : Nat)
    (hrp : p.length = result.length) (hgr : g.length = result.length)
    (hi : i < result.length) :
    (result.getD i 0 = 1 →
      (bernoulli_backward ⟨result, p⟩ g).getD i 0 = g.getD i 0 / (2 * p.getD i 0)) ∧
    (result.getD i 0 = 0 →
      (bernoulli_backward ⟨result, p⟩ g).getD i 0 = g.getD i 0 / (2 * (1 - p.getD i 0))) := by
  have hip : i < p.length := hrp ▸ hi
  have hig : i < g.length := hgr ▸ hi
  have hcond : i < (result.map (fun r => decide (r = 1))).length := by simpa using hi
  have hwm : i < (p.map (fun x => (1 / x) / 2)).length := by simpa using hip
  have hwp : i < (p.map (fun x => (1 / (1 - x)) / 2)).length := by simpa using hip
  have hws : i < (torchWhere (result.map (fun r => decide (r = 1)))
      (p.map (fun x => (1 / x) / 2)) (p.map (fun x => (1 / (1 - x)) / 2))).length := by
    rw [torchWhere, zipWith3_length]
    simp only [List.length_map]
    omega
  have key : (bernoulli_backward ⟨result, p⟩ g).getD i 0 =
      g.getD i 0 *
        (if result.getD i 0 = 1 then (1 / p.getD i 0) / 2
         else (1 / (1 - p.getD i 0)) / 2) := by
    rw [bernoulli_backward]
    simp only
    rw [getD_zipWith (· * ·) 0 0 0 g _ i hig hws]
    rw [torchWhere, getD_zipWith3 _ false 0 0 0 _ _ _ i hcond hwm hwp]
    rw [getD_map _ (0 : ℚ) false _ i hi, getD_map _ (0 : ℚ) (0 : ℚ) _ i hip,
      getD_map _ (0 : ℚ) (0 : ℚ) _ i hip]
    simp
  constructor
  · intro h1
    rw [key, if_pos h1, div_div, mul_one_div, mul_comm 2 (p.getD i 0)]
  · intro h0
    rw [key, if_neg (by rw [h0]; norm_num), div_div, mul_one_div,
      mul_comm 2 (1 - p.getD i 0)]

/-- C1 witness: `p = [0.3]`, saved sample `= [1]`, `g = [1]` gives
`[1/0.6] = [5/3]`. -/
theorem c1_weighted_jump_bernoulli_backward_witness :
    (bernoulli_backward ⟨[1], [(3 : ℚ)/10]⟩ [1]).getD 0 0 = 5/3 := by
  have h := (c1_weighted_jump_bernoulli_backward [1] [3/10] [1] 0 rfl rfl
    (by decide)).1 (by decide)
  rw [h]
  norm_num [List.getD_cons_zero]

/-- C7: the straight-through `StraightThroughBernoulli.backward` returns the
upstream gradient unchanged, elementwise, for any saved context. -/
theorem c7_straight_through_backward (ctx : BernoulliCtx) (g : Tensor)
    (h : g.length = ctx.result.length) :
    straightThroughBernoulli_backward ctx g = g := by
  rw [straightThroughBernoulli_backward, torchOnes]
  exact zipWith_mul_replicate_one g ctx.result.length h

/-- C7 witness: a concrete two-element gradient passes through unchanged. -/
theorem c7_straight_through_backward_witness :
    straightThroughBernoulli_backward ⟨[0, 1], [1/2, 1/2]⟩ [2, 3] = [2, 3] :=
  c7_straight_through_backward ⟨[0, 1], [1/2, 1/2]⟩ [2, 3] rfl

/-- C8: the forwards of the straight-through and weighted-jump Bernoulli
operators are the same function of the parameter and the underlying draw:
both sample `torch.bernoulli(p)`, save `(result, p)` and return the sample. -/
theorem c8_bernoulli_forwards_identical (p u : Tensor) :
    straightThroughBernoulli_forward p u = bernoulli_forward p u := rfl

/-- C2: `Binomial.backward` returns gradient
`g * ((d + u) / 2)` for `p`, with `d = sample/p` gated by `sample > 0` and
`u = (n - sample)/(1-p)` gated by `sample < n`, and a null gradient for `n`. -/
theorem c2_binomial_backward (n p s g : ℚ)
    (hn : 0 ≤ n) (hs0 : 0 ≤ s) (hsn : s ≤ n) :
    binomial_backward ⟨s, p, n⟩ g =
      (none,
        g * (((if 0 < s then s / p else 0) +
              (if s < n then (n - s) / (1 - p) else 0)) / 2)) := rfl

/-- C2 witness: `n=5, p=0.4`, sample `2`, `g=1` gives gradient `5` for `p`
and no gradient for `n`. -/
theorem c2_binomial_backward_witness :
    (binomial_backward ⟨2, 2/5, 5⟩ 1).2 = 5 ∧
    (binomial_backward ⟨2, 2/5, 5⟩ 1).1 = none := by
  have h := c2_binomial_backward 5 (2/5) 2 1 (by norm_num) (by norm_num) (by norm_num)
  rw [h]
  norm_num

/-- C3 counterexample: with `probs = [0.2, 0.3, 0.5]`, saved index `2`, and
upstream gradient `0`, `StochasticCategorical.backward` returns the all-zero
vector, so the index is non-zero yet the output has no non-zero entry — the
claim that exactly one non-zero entry exists fails for `g = 0`. -/
theorem c3_categorical_backward_counterexample :
    stochasticCategorical_backward ⟨[1/5, 3/10, 1/2], 2⟩ 0 = [0, 0, 0] ∧
    (2 : Nat) ≠ 0 := by
  constructor
  · norm_num [stochasticCategorical_backward, List.replicate_succ]
  · decide

/-- C3 (amended): `StochasticCategorical.backward` returns the all-zero
vector when the saved index is `0`; otherwise the entry at the saved index
`i` equals `-g * F_lower / probs[i]` with `F_lower = sum(probs[0:i])` and
every other entry is exactly zero; in particular `probs = [0.2, 0.3, 0.5]`,
`i = 2`, `g = 1` gives `[0, 0, -1]`. -/
theorem c3_categorical_backward (probs : List ℚ) (i : Nat) (g : ℚ)
    (hi : i < probs.length) :
    (i = 0 → stochasticCategorical_backward ⟨probs, i⟩ g =
      List.replicate probs.length 0) ∧
    (i ≠ 0 →
      (stochasticCategorical_backward ⟨probs, i⟩ g).getD i 0 =
        -g * (probs.take i).sum / probs.getD i 0 ∧
      ∀ j, j ≠ i → (stochasticCategorical_backward ⟨probs, i⟩ g).getD j 0 = 0) ∧
    stochasticCategorical_backward ⟨[1/5, 3/10, 1/2], 2⟩ 1 = [0, 0, -1] := by
  refine ⟨fun h0 => by simp [stochasticCategorical_backward, h0], fun hne => ?_, ?_⟩
  · rw [stochasticCategorical_backward]
    simp only [if_neg hne]
    constructor
    · rw [getD_set_self _ i _ (by simpa using hi)]
      ring
    · intro j hj
      rw [getD_set_ne _ i j _ hj, getD_replicate_zero]
  · norm_num [stochasticCategorical_backward, List.replicate_succ,
      List.set_cons_succ, List.set_cons_zero]

/-- C3 witness: instantiating the amended claim at `probs = [0.2, 0.3, 0.5]`,
`i = 2`, `g = 1`: the entry at index `2` is `-F_lower/probs[2] = -1` and the
entry at index `0` is zero. -/
theorem c3_categorical_backward_witness :
    (stochasticCategorical_backward ⟨[1/5, 3/10, 1/2], 2⟩ 1).getD 2 0 =
      -1 * ([(1 : ℚ)/5, 3/10, 1/2].take 2).sum / ([(1 : ℚ)/5, 3/10, 1/2].getD 2 0) ∧
    (stochasticCategorical_backward ⟨[1/5, 3/10, 1/2], 2⟩ 1).getD 0 0 = 0 := by
  have h := (c3_categorical_backward [1/5, 3/10, 1/2] 2 1 (by decide)).2.1 (by decide)
  exact ⟨h.1, h.2 0 (by decide)⟩

/-- C6: for a non-empty probability vector summing to `1` and a uniform draw
`u ∈ [0,1)`, the index sampled by `StochasticCategorical.forward` is a valid
index into `probs`. -/
theorem c6_categorical_forward_index (probs : List ℚ) (u : ℚ)
    (hne : probs ≠ []) (hsum : probs.sum = 1) (hu0 : 0 ≤ u) (hu1 : u < 1) :
    (stochasticCategorical_forward probs u).2.idx < probs.length := by
  have hmem : probs.sum ∈ cumsum probs := sum_mem_cumsum probs hne
  have hex : ∃ x ∈ cumsum probs, (fun c => decide (u ≤ c)) x = true :=
    ⟨probs.sum, hmem, by rw [hsum]; simpa using le_of_lt hu1⟩
  have hlt := List.findIdx_lt_length_of_exists hex
  rw [cumsum_length] at hlt
  simpa [stochasticCategorical_forward, searchsorted] using hlt

/-- C6 witness: `probs = [0.2, 0.3, 0.5]`, `u = 0.5` yields a valid index. -/
theorem c6_categorical_forward_index_witness :
    (stochasticCategorical_forward [1/5, 3/10, 1/2] (1/2)).2.idx <
      ([(1 : ℚ)/5, 3/10, 1/2]).length :=
  c6_categorical_forward_index [1/5, 3/10, 1/2] (1/2) (by simp) (by norm_num)
    (by norm_num) (by norm_num)

/-- C4: for every caller-supplied `p`, the parameter saved by
`Geometric.forward` lies in `[1e-5, 1-1e-5]`, so neither `1/p` nor
`(sample-1)/(1-p)` in `Geometric.backward` divides by exactly zero; and
whenever the saved sample equals `1`, the downward contribution is excluded
from the averaged weight. -/
theorem c4_geometric_clamp_safe (p u : ℝ) :
    (geomEps ≤ (geometric_forward p u).2.p ∧
      (geometric_forward p u).2.p ≤ 1 - geomEps) ∧
    (geometric_forward p u).2.p ≠ 0 ∧
    (1 - (geometric_forward p u).2.p) ≠ 0 ∧
    (∀ g, (geometric_forward p u).2.result = 1 →
      geometric_backward (geometric_forward p u).2 g =
        g * ((1 / (geometric_forward p u).2.p + 0) / 2)) := by
  have hp : (geometric_forward p u).2.p = clampR p geomEps (1 - geomEps) := rfl
  have hlo : geomEps ≤ clampR p geomEps (1 - geomEps) := by
    rw [clampR]; exact le_max_left _ _
  have hhi : clampR p geomEps (1 - geomEps) ≤ 1 - geomEps := by
    rw [clampR]
    exact max_le (by rw [geomEps]; norm_num) (min_le_right _ _)
  have heps : (0 : ℝ) < geomEps := by rw [geomEps]; norm_num
  have hpos : 0 < (geometric_forward p u).2.p := by
    rw [hp]; exact lt_of_lt_of_le heps hlo
  have hlt1 : (geometric_forward p u).2.p < 1 := by
    rw [hp]
    exact lt_of_le_of_lt hhi (by rw [geomEps]; norm_num)
  refine ⟨⟨hp ▸ hlo, hp ▸ hhi⟩, ne_of_gt hpos, ?_, ?_⟩
  · have : 0 < 1 - (geometric_forward p u).2.p := by linarith
    exact ne_of_gt this
  · intro g hr
    rw [geometric_backward]
    simp only [hr]
    norm_num

/-- C4 witness: with `p = 1/2` and `u = 1/2` the sampled value is `1`, and
backward at `g = 1` uses only the upward weight, halved. -/
theorem c4_geometric_clamp_safe_witness :
    geometric_backward ((geometric_forward ((1:ℝ)/2) ((1:ℝ)/2)).2) 1 =
      1 * ((1 / (geometric_forward ((1:ℝ)/2) ((1:ℝ)/2)).2.p + 0) / 2) := by
  have hpc : clampR ((1:ℝ)/2) geomEps (1 - geomEps) = 1/2 := by
    rw [clampR, geomEps, min_eq_left (by norm_num), max_eq_right (by norm_num)]
  have hlog : Real.log (1 - (1:ℝ)/2) ≠ 0 :=
    ne_of_lt (Real.log_neg (by norm_num) (by norm_num))
  have hr : (geometric_forward ((1:ℝ)/2) ((1:ℝ)/2)).2.result = 1 := by
    show ((⌈Real.log (1 - (1:ℝ)/2) /
      Real.log (1 - clampR ((1:ℝ)/2) geomEps (1 - geomEps))⌉ : ℤ) : ℝ) = 1
    rw [hpc, div_self hlog, Int.ceil_one]
    norm_num
  exact (c4_geometric_clamp_safe ((1:ℝ)/2) ((1:ℝ)/2)).2.2.2 1 hr

/-- C5 counterexample: at `p = 1/2` (inside `(0,1)`) and the admissible
uniform draw `u = 0` (inside `[0,1)`), `Geometric.forward` returns `0`,
not a positive integer: `ceil(log(1-0)/log(1-p)) = ceil(0) = 0`. -/
theorem c5_geometric_forward_counterexample :
    ¬ (1 ≤ (geometric_forward ((1:ℝ)/2) 0).1) ∧
    (geometric_forward ((1:ℝ)/2) 0).1 = 0 ∧
    ((0:ℝ) ≤ 0 ∧ (0:ℝ) < 1) ∧ ((0:ℝ) < 1/2 ∧ ((1:ℝ)/2) < 1) := by
  have h0 : (geometric_forward ((1:ℝ)/2) 0).1 = 0 := by
    show ((⌈Real.log (1 - (0:ℝ)) /
      Real.log (1 - clampR ((1:ℝ)/2) geomEps (1 - geomEps))⌉ : ℤ) : ℝ) = 0
    rw [show (1:ℝ) - 0 = 1 by norm_num, Real.log_one, zero_div, Int.ceil_zero]
    norm_num
  refine ⟨?_, h0, ⟨le_refl 0, by norm_num⟩, ⟨by norm_num, by norm_num⟩⟩
  rw [h0]
  norm_num

/-- C5 (amended): for every `p ∈ (0,1)` and every uniform draw `u` in the
open interval `(0,1)`, the value returned by `Geometric.forward` is at
least `1`. (At `u = 0` the returned value is `0`, so the half-open interval
of the original claim fails.) -/
theorem c5_geometric_forward_positive (p u : ℝ) (hp0 : 0 < p) (hp1 : p < 1)
    (hu0 : 0 < u) (hu1 : u < 1) :
    1 ≤ (geometric_forward p u).1 := by
  have hlo : geomEps ≤ clampR p geomEps (1 - geomEps) := by
    rw [clampR]; exact le_max_left _ _
  have hhi : clampR p geomEps (1 - geomEps) ≤ 1 - geomEps := by
    rw [clampR]
    exact max_le (by rw [geomEps]; norm_num) (min_le_right _ _)
  have heps : (0 : ℝ) < geomEps := by rw [geomEps]; norm_num
  have hpc0 : 0 < clampR p geomEps (1 - geomEps) := lt_of_lt_of_le heps hlo
  have hpc1 : clampR p geomEps (1 - geomEps) < 1 :=
    lt_of_le_of_lt hhi (by rw [geomEps]; norm_num)
  have hl1 : Real.log (1 - u) < 0 := Real.log_neg (by linarith) (by linarith)
  have hl2 : Real.log (1 - clampR p geomEps (1 - geomEps)) < 0 :=
    Real.log_neg (by linarith) (by linarith)
  have hratio : 0 < Real.log (1 - u) /
      Real.log (1 - clampR p geomEps (1 - geomEps)) :=
    div_pos_iff.mpr (Or.inr ⟨hl1, hl2⟩)
  have hceil : (0 : ℤ) <
      ⌈Real.log (1 - u) / Real.log (1 - clampR p geomEps (1 - geomEps))⌉ :=
    Int.ceil_pos.mpr hratio
  have h1 : (1 : ℤ) ≤
      ⌈Real.log (1 - u) / Real.log (1 - clampR p geomEps (1 - geomEps))⌉ := by
    omega
  show (1 : ℝ) ≤
    ((⌈Real.log (1 - u) / Real.log (1 - clampR p geomEps (1 - geomEps))⌉ : ℤ) : ℝ)
  exact_mod_cast h1

/-- C5 witness: `p = 1/2`, `u = 1/2` yields a sample at least `1`. -/
theorem c5_geometric_forward_positive_witness :
    1 ≤ (geometric_forward ((1:ℝ)/2) ((1:ℝ)/2)).1 :=
  c5_geometric_forward_positive ((1:ℝ)/2) ((1:ℝ)/2) (by norm_num) (by norm_num)
    (by norm_num) (by norm_num)

/-- C9 counterexample: the Geometric operator's forward saves the clamped
parameter, not the caller's: for caller-supplied `p = 0` the saved value is
`1e-5 ≠ 0`. -/
theorem c9_context_counterexample :
    (geometric_forward 0 ((1:ℝ)/2)).2.p = 1/100000 ∧
    (geometric_forward 0 ((1:ℝ)/2)).2.p ≠ 0 := by
  have h : (geometric_forward 0 ((1:ℝ)/2)).2.p = 1/100000 := by
    show clampR 0 geomEps (1 - geomEps) = 1/100000
    rw [clampR, geomEps, min_eq_left (by norm_num), max_eq_left (by norm_num)]
  exact ⟨h, by rw [h]; norm_num⟩

/-- C9 (amended): every forward saves exactly the sampled result and the
caller-supplied parameters unchanged (plus, for Categorical, the sampled
index), except the Geometric operator, which saves the clamped parameter
`clamp(p, 1e-5, 1-1e-5)`; the latter equals the caller's `p` exactly when
`p` already lies inside the clamp bounds. -/
theorem c9_forward_saved_context (p u : Tensor) (n : Nat) (pq : ℚ)
    (us : List ℚ) (probs : List ℚ) (uq : ℚ) (pr ur : ℝ) :
    ((straightThroughBernoulli_forward p u).2.result =
        (straightThroughBernoulli_forward p u).1 ∧
      (straightThroughBernoulli_forward p u).2.p = p) ∧
    ((bernoulli_forward p u).2.result = (bernoulli_forward p u).1 ∧
      (bernoulli_forward p u).2.p = p) ∧
    ((binomial_forward n pq us).2.result = (binomial_forward n pq us).1 ∧
      (binomial_forward n pq us).2.p = pq ∧
      (binomial_forward n pq us).2.n = (n : ℚ)) ∧
    ((stochasticCategorical_forward probs uq).2.probs = probs ∧
      (((stochasticCategorical_forward probs uq).2.idx : ℚ)) =
        (stochasticCategorical_forward probs uq).1) ∧
    ((geometric_forward pr ur).2.result = (geometric_forward pr ur).1 ∧
      (geometric_forward pr ur).2.p = clampR pr geomEps (1 - geomEps) ∧
      (geomEps ≤ pr → pr ≤ 1 - geomEps →
        (geometric_forward pr ur).2.p = pr)) := by
  refine ⟨⟨rfl, rfl⟩, ⟨rfl, rfl⟩, ⟨rfl, rfl, rfl⟩, ⟨rfl, rfl⟩, rfl, rfl, ?_⟩
  intro h1 h2
  show clampR pr geomEps (1 - geomEps) = pr
  rw [clampR, min_eq_left h2, max_eq_right h1]

/-- C9 witness: with `pr = 1/2` inside the clamp bounds, the Geometric
forward saves exactly the caller's parameter. -/
theorem c9_forward_saved_context_witness :
    (geometric_forward ((1:ℝ)/2) ((1:ℝ)/3)).2.p = (1:ℝ)/2 :=
  (c9_forward_saved_context [] [] 0 0 [] [] 0 ((1:ℝ)/2) ((1:ℝ)/3)).2.2.2.2.2.2
    (by rw [geomEps]; norm_num) (by rw [geomEps]; norm_num)

/-- C10: every backward is a pure function of the saved context and the
upstream gradient — the embeddings of the five backward rules take no source
of randomness, so equal saved tensors and equal `grad_output` give equal
returned gradients. -/
theorem c10_backward_deterministic
    (cb cb2 : BernoulliCtx) (gb gb2 : Tensor) (hcb : cb = cb2) (hgb : gb = gb2)
    (cn cn2 : BinomialCtx) (gn gn2 : ℚ) (hcn : cn = cn2) (hgn : gn = gn2)
    (cg cg2 : GeometricCtx) (gr gr2 : ℝ) (hcg : cg = cg2) (hgr : gr = gr2)
    (cc cc2 : CategoricalCtx) (gq gq2 : ℚ) (hcc : cc = cc2) (hgq : gq = gq2) :
    straightThroughBernoulli_backward cb gb =
      straightThroughBernoulli_backward cb2 gb2 ∧
    bernoulli_backward cb gb = bernoulli_backward cb2 gb2 ∧
    binomial_backward cn gn = binomial_backward cn2 gn2 ∧
    geometric_backward cg gr = geometric_backward cg2 gr2 ∧
    stochasticCategorical_backward cc gq =
      stochasticCategorical_backward cc2 gq2 := by
  subst hcb hgb hcn hgn hcg hgr hcc hgq
  exact ⟨rfl, rfl, rfl, rfl, rfl⟩

/-- C10 witness: two identical weighted-jump Bernoulli backward invocations
on a concrete context agree. -/
theorem c10_backward_deterministic_witness :
    bernoulli_backward ⟨[1], [1/2]⟩ [1] = bernoulli_backward ⟨[1], [1/2]⟩ [1] :=
  (c10_backward_deterministic ⟨[1], [1/2]⟩ ⟨[1], [1/2]⟩ [1] [1] rfl rfl
    ⟨1, 1/2, 3⟩ ⟨1, 1/2, 3⟩ 1 1 rfl rfl ⟨1, 1/2⟩ ⟨1, 1/2⟩ 1 1 rfl rfl
    ⟨[1], 0⟩ ⟨[1], 0⟩ 1 1 rfl rfl).2.1

end AgentTorch
